import Mathlib

/-!
Verification of the convergence-rate study in `src/chapter4/convergence.ipynb`
(the "Convergence Analysis Engine" of the specification).

The notebook's own logic is a small numerical pipeline:
  * `solve_poisson(N, degree)` — delegates meshing, assembly and the linear
    solve to the external finite-element library and returns the pair
    `(default_problem.solve(), u_ufl(x))`: a discrete solution and a symbolic
    (ufl) expression for the exact solution;
  * `error_L2(uh, u_ex, degree_raise=3)` — interpolates both fields into a
    higher-order space, subtracts the dof arrays, integrates the square and
    takes a square root;
  * `error_infinity(u_h, u_ex)` — interpolates the exact solution into `u_h`'s
    own space and takes the max absolute dof-wise difference across ranks;
  * the convergence-study loops — for each `N` in `Ns`, call `solve_poisson`,
    record `h = 1/N` and the error of `uh` against the module-level numpy
    callable `u_numpy`;
  * `rates = np.log(Es[1:]/Es[:-1]) / np.log(hs[1:]/hs[:-1])` — the pairwise
    log-ratio rate estimator.

Machine floats are embedded as real numbers.  External-library operations
(interpolation, assembly of the bilinear form, the solver itself) are passed
in as explicit oracle parameters, so every theorem is parametric in the
behaviour of the external library exactly where the Python code calls it.
-/

namespace Convergence

/-! ## Data model -/

/-- The `(family, degree)` pair used by the notebook to build a
`FunctionSpace`, as in `FunctionSpace(mesh, ("CG", degree))`. -/
structure ElementSig where
  family : String
  degree : Nat
deriving DecidableEq

/-- Identity of a `dolfinx` function space: the mesh it is built on
(abstract identity, `uh.function_space.mesh`) and its element signature
(`uh.function_space.ufl_element()`). -/
structure FunctionSpaceSig where
  meshId : Nat
  elem : ElementSig
deriving DecidableEq

/-- A discrete finite-element function `u`: the space it lives in and its
degree-of-freedom coefficient arrays `u.x.array`, one local array per MPI
rank (outer list = ranks). -/
structure FEFunction where
  space : FunctionSpaceSig
  x : List (List ℝ)

/-- The representations an exact solution can arrive in at the error
evaluators.  The Python code distinguishes, by `isinstance`, a symbolic
`ufl.core.expr.Expr` from everything else; "everything else" is either a
plain evaluable callable (such as the module-level `u_numpy` lambda) or some
unsupported object.  Payloads are abstract identities. -/
inductive ExactSol where
  | uflExpr (id : Nat)
  | callable (id : Nat)
  | other (id : Nat)
deriving DecidableEq

/-- The `isinstance(u_ex, ufl.core.expr.Expr)` test. -/
def isUflExpr : ExactSol → Bool
  | ExactSol.uflExpr _ => true
  | _ => false

/-- The possible arguments the notebook passes to the external
`Function.interpolate`: another discrete function (`u_W.interpolate(uh)`), a
compiled `Expression` built from a ufl expression at the target space's
interpolation points, or a raw Python object (the `else` branch
`u_ex_V.interpolate(u_ex)`). -/
inductive InterpSource where
  | fromFunction (f : FEFunction)
  | fromExpression (id : Nat)
  | fromObject (e : ExactSol)

/-- The external library's interpolation facility: given the target space and
the source, it produces the per-rank dof arrays of the interpolant.  This is
an oracle parameter: the notebook calls into `dolfinx` here. -/
abbrev Interp := FunctionSpaceSig → InterpSource → List (List ℝ)

/-- One record of the convergence study: mesh size `h = 1/N` and the measured
error `E` (the notebook's parallel arrays `hs` and `Es`, paired up). -/
structure ErrorSample where
  h : ℝ
  E : ℝ

/-! ## The exact-solution dispatch shared by both error evaluators

Both `error_L2` and `error_infinity` contain the identical fragment

    if isinstance(u_ex, ufl.core.expr.Expr):
        u_expr = Expression(u_ex, <target space>.element.interpolation_points)
        u_ex_W.interpolate(u_expr)
    else:
        u_ex_W.interpolate(u_ex)

Note the `else` branch receives every non-`Expr` object, evaluable or not:
there is no third case and no explicit rejection of unsupported
representations. -/

/-- The `isinstance` dispatch of both evaluators, lines 150–154 and 317–321
of the notebook: a ufl expression is compiled to an `Expression` at the
target space's interpolation points, anything else is handed verbatim to
`interpolate`. -/
def interpExact (interp : Interp) (W : FunctionSpaceSig) (u_ex : ExactSol) :
    List (List ℝ) :=
  match u_ex with
  | ExactSol.uflExpr i => interp W (InterpSource.fromExpression i)
  | e => interp W (InterpSource.fromObject e)

/-! ## `error_L2` -/

/-- The higher-order comparison space built by `error_L2`:

    degree = uh.function_space.ufl_element().degree()
    family = uh.function_space.ufl_element().family()
    mesh = uh.function_space.mesh
    W = FunctionSpace(mesh, (family, degree + degree_raise))
-/
def l2HighSpace (V : FunctionSpaceSig) (degree_raise : Nat) : FunctionSpaceSig :=
  { meshId := V.meshId
    elem := { family := V.elem.family, degree := V.elem.degree + degree_raise } }

/-- `u_W = Function(W); u_W.interpolate(uh)` — the approximate solution
interpolated into the raised space. -/
def l2ApproxW (interp : Interp) (uh : FEFunction) (degree_raise : Nat) :
    List (List ℝ) :=
  interp (l2HighSpace uh.space degree_raise) (InterpSource.fromFunction uh)

/-- `u_ex_W` — the exact solution interpolated into the raised space through
the `isinstance` dispatch. -/
def l2ExactW (interp : Interp) (uh : FEFunction) (u_ex : ExactSol)
    (degree_raise : Nat) : List (List ℝ) :=
  interpExact interp (l2HighSpace uh.space degree_raise) u_ex

/-- `e_W.x.array[:] = u_W.x.array - u_ex_W.x.array`, rank by rank. -/
noncomputable def l2DiffW (interp : Interp) (uh : FEFunction) (u_ex : ExactSol)
    (degree_raise : Nat) : List (List ℝ) :=
  List.zipWith (fun a b => List.zipWith (fun s t => s - t) a b)
    (l2ApproxW interp uh degree_raise) (l2ExactW interp uh u_ex degree_raise)

/-- `error_L2` (notebook lines 137–164).  The external assembly of
`form(ufl.inner(e_W, e_W) * ufl.dx)` on one rank is the quadratic form
`Q W` applied to that rank's dof array of `e_W` (the mass-matrix quadratic
form of the space `W`); `mesh.comm.allreduce(error_local, op=MPI.SUM)` is the
sum over ranks; finally `np.sqrt` of the global value. -/
noncomputable def error_L2 (interp : Interp) (Q : FunctionSpaceSig → List ℝ → ℝ)
    (uh : FEFunction) (u_ex : ExactSol) (degree_raise : Nat) : ℝ :=
  Real.sqrt (((l2DiffW interp uh u_ex degree_raise).map
    (Q (l2HighSpace uh.space degree_raise))).sum)

/-- The Python default `degree_raise=3`. -/
def defaultDegreeRaise : Nat := 3

/-! ## `error_infinity` -/

/-- `l.foldl max 0`: the maximum of a list of reals, with `0` as the fold's
base.  Models both `np.max` on an array of absolute values and the
`comm.allreduce(·, op=MPI.MAX)` reduction; on the (nonnegative) absolute
differences it is the true maximum. -/
noncomputable def listMax (l : List ℝ) : ℝ := l.foldl max 0

/-- `u_ex_V = Function(u_h.function_space)` followed by the dispatch: the
exact solution interpolated into `u_h`'s *own* space — no degree raise. -/
def infExactV (interp : Interp) (u_h : FEFunction) (u_ex : ExactSol) :
    List (List ℝ) :=
  interpExact interp u_h.space u_ex

/-- `np.abs(u_h.x.array - u_ex_V.x.array)`, rank by rank. -/
noncomputable def infAbsDiff (interp : Interp) (u_h : FEFunction) (u_ex : ExactSol) :
    List (List ℝ) :=
  List.zipWith (fun a b => List.zipWith (fun s t => |s - t|) a b)
    u_h.x (infExactV interp u_h u_ex)

/-- `error_infinity` (notebook lines 312–326): per-rank
`error_max_local = np.max(np.abs(u_h.x.array - u_ex_V.x.array))`, then
`error_max = comm.allreduce(error_max_local, op=MPI.MAX)`. -/
noncomputable def error_infinity (interp : Interp) (u_h : FEFunction)
    (u_ex : ExactSol) : ℝ :=
  listMax ((infAbsDiff interp u_h u_ex).map listMax)

/-! ## The rate computation -/

/-- Elementwise division of equal-length numpy arrays. -/
noncomputable def npDiv (a b : List ℝ) : List ℝ := List.zipWith (fun s t => s / t) a b

/-- Elementwise `np.log`. -/
noncomputable def npLog (a : List ℝ) : List ℝ := a.map Real.log

/-- The notebook's rate estimator, line 233 (and again at 293):

    rates = np.log(Es[1:] / Es[:-1]) / np.log(hs[1:] / hs[:-1])

`xs[1:]` is `xs.tail`, `xs[:-1]` is `xs.dropLast`. -/
noncomputable def rates (hs Es : List ℝ) : List ℝ :=
  npDiv (npLog (npDiv Es.tail Es.dropLast)) (npLog (npDiv hs.tail hs.dropLast))

/-- The failure kinds the specification prescribes for the rate estimator. -/
inductive RateError where
  | DegenerateSample
  | UnorderedSampleSequence
deriving DecidableEq

/-- The specification's interface name for the notebook's rate computation,
applied to the paired `(hs, Es)` record sequence.  The underlying code is
the single numpy expression embedded in `rates`; it contains no validation
and no failure path, so its embedding into the `Except` interface demanded
by the specification is always `Except.ok`. -/
noncomputable def estimate_rates (samples : List ErrorSample) :
    Except RateError (List ℝ) :=
  Except.ok (rates (samples.map ErrorSample.h) (samples.map ErrorSample.E))

/-- Spec-side formula for the rate sequence: the `i`-th entry is
`ln(E_i / E_{i-1}) / ln(h_i / h_{i-1})`, one entry per adjacent pair of
samples.  Stated recursively for comparison with the numpy slicing in
`rates`. -/
noncomputable def pairwiseRatesSpec : List ErrorSample → List ℝ
  | a :: b :: rest =>
      (Real.log (b.E / a.E) / Real.log (b.h / a.h)) :: pairwiseRatesSpec (b :: rest)
  | _ => []

/-! ## `solve_poisson` and the convergence-study loops -/

/-- The module-level numpy exact solution
`u_numpy = u_ex(np) = lambda x: np.cos(2*np.pi*x[0])*np.cos(2*np.pi*x[1])`:
a plain Python callable, modelled as the callable object with identity `0`. -/
def u_numpy : ExactSol := ExactSol.callable 0

/-- `solve_poisson(N, degree)` (notebook lines 43–59).  Mesh creation, form
compilation and the linear solve are external-library work, abstracted into
the oracle `externalSolve`; the function returns the pair
`(default_problem.solve(), u_ufl(x))`, whose second component is the
symbolic ufl expression `u_ufl(x)` (of abstract identity `uflExprId`). -/
def solve_poisson (externalSolve : Nat → Nat → FEFunction) (uflExprId : Nat)
    (N degree : Nat) : FEFunction × ExactSol :=
  (externalSolve N degree, ExactSol.uflExpr uflExprId)

/-- The L2 convergence-study loop (notebook lines 193–205 with `degree = 1`,
and lines 281–292 over several degrees; both record the same quantities):

    for i, N in enumerate(Ns):
        uh, u_ex = solve_poisson(N, degree=degree)
        Es[i] = error_L2(uh, u_numpy, degree_raise=3)
        hs[i] = 1. / Ns[i]

The first loop uses `error_L2(uh, u_numpy)` with the default
`degree_raise=3`, the second passes `degree_raise=3` explicitly; both are
embedded with raise `defaultDegreeRaise`.  The `hs`/`Es` arrays are returned
paired as `ErrorSample`s. -/
noncomputable def convergenceStudyL2 (externalSolve : Nat → Nat → FEFunction)
    (uflExprId : Nat) (interp : Interp) (Q : FunctionSpaceSig → List ℝ → ℝ)
    (Ns : List Nat) (degree : Nat) : List ErrorSample :=
  Ns.map (fun (N : Nat) =>
    { h := 1 / (N : ℝ)
      E := error_L2 interp Q (solve_poisson externalSolve uflExprId N degree).1
        u_numpy defaultDegreeRaise })

/-- The infinity-norm convergence-study loop (notebook lines 355–367):
identical to the L2 loop except `Es[i] = error_infinity(uh, u_numpy)`. -/
noncomputable def convergenceStudyInf (externalSolve : Nat → Nat → FEFunction)
    (uflExprId : Nat) (interp : Interp) (Ns : List Nat) (degree : Nat) :
    List ErrorSample :=
  Ns.map (fun (N : Nat) =>
    { h := 1 / (N : ℝ)
      E := error_infinity interp
        (solve_poisson externalSolve uflExprId N degree).1 u_numpy })

/-! ## Synthetic inputs and oracle fixtures used by witnesses -/

/-- A geometrically halving sequence of mesh sizes starting at `h0`:
`[h0, h0/2, h0/4, ...]` of length `n` (the synthetic input of the
power-law property). -/
noncomputable def halving (h0 : ℝ) : Nat → List ℝ
  | 0 => []
  | n + 1 => h0 :: halving (h0 / 2) n

/-- The property the external assembly of `form(inner(e, e) * dx)` has as a
function of the dof coefficients `e` of the integrand: the integral of the
square of a finite-element function is nonnegative, and vanishes exactly
when every coefficient vanishes (the basis functions of a finite-element
space are linearly independent, so its mass matrix is positive definite).
This is a property of the external library, supplied to the theorems as a
hypothesis. -/
def PosDefForm (Q : List ℝ → ℝ) : Prop :=
  (∀ e, 0 ≤ Q e) ∧ ∀ e, (Q e = 0 ↔ ∀ x ∈ e, x = 0)

/-- A concrete function space signature for witnesses: the notebook's
`FunctionSpace(mesh, ("CG", 1))`. -/
def V0 : FunctionSpaceSig := ⟨0, ⟨"CG", 1⟩⟩

/-- A concrete discrete solution on `V0` with a single dof array `[1]`. -/
noncomputable def uh0 : FEFunction := ⟨V0, [[1]]⟩

/-- A concrete interpolation oracle that returns the dof array `[1]` for
every request. -/
noncomputable def interpA : Interp := fun _ _ => [[1]]

/-- An interpolation oracle that agrees with `interpA` on degree-1 spaces
and differs elsewhere. -/
noncomputable def interpB : Interp :=
  fun W s => if W.elem.degree = 1 then interpA W s else [[5]]

/-- An interpolation oracle that agrees with `interpA` on degree-4 spaces
(the raised space of `V0` at the default raise) and differs elsewhere. -/
noncomputable def interpC : Interp :=
  fun W s => if W.elem.degree = 4 then interpA W s else [[7]]

/-- A concrete assembled quadratic form for witnesses: the sum of squares of
the dof coefficients (a positive-definite form, like a mass matrix with
identity Gram structure). -/
noncomputable def Q0 : FunctionSpaceSig → List ℝ → ℝ :=
  fun _ e => (e.map (fun x => x ^ 2)).sum

/-- A concrete solver oracle for witnesses: every resolution yields `uh0`. -/
noncomputable def solveA : Nat → Nat → FEFunction := fun _ _ => uh0

/-- A solver oracle that agrees with `solveA` except at resolution `99`. -/
noncomputable def solveB : Nat → Nat → FEFunction :=
  fun N _ => if N = 99 then ⟨V0, []⟩ else uh0

end Convergence

namespace Convergence

/-! ## Basic structural lemmas about `rates` -/

/-- Unfolding `rates` on two leading elements: the head is the log-ratio of
the first adjacent pair, the tail is `rates` of the remaining samples. -/
theorem rates_cons_cons (a b c d : ℝ) (t u : List ℝ) :
    rates (a :: b :: t) (c :: d :: u) =
      (Real.log (d / c) / Real.log (b / a)) :: rates (b :: t) (d :: u) := by
  simp [rates, npDiv, npLog, List.dropLast]

/-- `rates` of the component arrays of a sample list agrees with the
adjacent-pair log-ratio formula. -/
theorem rates_eq_pairwiseRatesSpec :
    ∀ l : List ErrorSample,
      rates (l.map ErrorSample.h) (l.map ErrorSample.E) = pairwiseRatesSpec l
  | [] => by simp [rates, npDiv, npLog, pairwiseRatesSpec]
  | [a] => by simp [rates, npDiv, npLog, pairwiseRatesSpec]
  | a :: b :: t => by
      rw [List.map_cons, List.map_cons, List.map_cons, List.map_cons,
        rates_cons_cons, pairwiseRatesSpec]
      rw [← List.map_cons ErrorSample.h b t, ← List.map_cons ErrorSample.E b t,
        rates_eq_pairwiseRatesSpec (b :: t)]

/-- The pairwise formula produces one entry per adjacent pair. -/
theorem pairwiseRatesSpec_length :
    ∀ l : List ErrorSample, (pairwiseRatesSpec l).length = l.length - 1
  | [] => by simp [pairwiseRatesSpec]
  | [a] => by simp [pairwiseRatesSpec]
  | a :: b :: t => by
      rw [pairwiseRatesSpec, List.length_cons, pairwiseRatesSpec_length (b :: t)]
      simp

/-! ## Claims C1 and C2: the rate computation has no failure path -/

/-- Claim C1, counterexample.  The sample sequence
`[(h, E) = (1/4, 1/2), (1/8, 0)]` contains the error value `0`, yet the rate
computation does not fail with `DegenerateSample`: the code is a bare numpy
expression with no validation, so it returns a result. -/
theorem estimate_rates_zero_error_no_failure :
    estimate_rates [⟨(1 : ℝ)/4, 1/2⟩, ⟨1/8, 0⟩] ≠
      Except.error RateError.DegenerateSample := by
  simp [estimate_rates]

/-- Claim C1, amended: `estimate_rates` performs no validation of the error
values; on every input sequence — including ones with zero or negative
errors — it succeeds, returning a rate list of length `n - 1` (in the
floating-point original, entries at a degenerate pair are silent
`NaN`/`±inf` values, not an error). -/
theorem estimate_rates_always_ok (samples : List ErrorSample) :
    ∃ rs : List ℝ, estimate_rates samples = Except.ok rs ∧
      rs.length = samples.length - 1 := by
  refine ⟨_, rfl, ?_⟩
  rw [rates_eq_pairwiseRatesSpec, pairwiseRatesSpec_length]

/-- Claim C2, counterexample.  The sample sequence
`[(h, E) = (1/8, 3/4), (1/4, 1/2)]` has strictly *increasing* mesh sizes,
yet the rate computation does not fail with `UnorderedSampleSequence`. -/
theorem estimate_rates_unordered_no_failure :
    estimate_rates [⟨(1 : ℝ)/8, 3/4⟩, ⟨1/4, 1/2⟩] ≠
      Except.error RateError.UnorderedSampleSequence := by
  simp [estimate_rates]

/-- Claim C2, amended: `estimate_rates` performs no ordering check on the
mesh sizes; it never raises `UnorderedSampleSequence`, succeeding on every
sample sequence whether or not `h` is strictly decreasing. -/
theorem estimate_rates_never_unordered (samples : List ErrorSample) :
    estimate_rates samples ≠ Except.error RateError.UnorderedSampleSequence := by
  simp [estimate_rates]

/-! ## Claim C4: the pairwise log-ratio formula -/

/-- Claim C4: for every sequence of at least two samples with strictly
decreasing `h` and strictly positive errors, `estimate_rates` returns the
sequence whose `i`-th entry is `ln(E_i / E_{i-1}) / ln(h_i / h_{i-1})`
(the adjacent-pair formula `pairwiseRatesSpec`), of length exactly `n - 1`. -/
theorem estimate_rates_pairwise (samples : List ErrorSample)
    (hn : 2 ≤ samples.length)
    (hdec : samples.Chain' (fun s t => t.h < s.h))
    (hpos : ∀ s ∈ samples, 0 < s.E) :
    estimate_rates samples = Except.ok (pairwiseRatesSpec samples) ∧
      (pairwiseRatesSpec samples).length = samples.length - 1 := by
  refine ⟨?_, pairwiseRatesSpec_length samples⟩
  unfold estimate_rates
  rw [rates_eq_pairwiseRatesSpec]

/-- Claim C4, witness at the two-sample sequence
`[(h, E) = (1/2, 1/2), (1/4, 1/8)]`. -/
theorem estimate_rates_pairwise_witness :
    estimate_rates [⟨(1 : ℝ)/2, 1/2⟩, ⟨1/4, 1/8⟩] =
      Except.ok (pairwiseRatesSpec [⟨(1 : ℝ)/2, 1/2⟩, ⟨1/4, 1/8⟩]) ∧
      (pairwiseRatesSpec [⟨(1 : ℝ)/2, 1/2⟩, ⟨1/4, 1/8⟩]).length = 2 - 1 := by
  exact estimate_rates_pairwise [⟨(1 : ℝ)/2, 1/2⟩, ⟨1/4, 1/8⟩]
    (by norm_num)
    (by norm_num [List.chain'_cons])
    (by norm_num [List.forall_mem_cons])

/-! ## Claim C6: exact recovery of a power-law rate -/

/-- The single-pair log-ratio at a halving step of an exact power law
`E = C * h ^ r` recovers `r` exactly. -/
theorem log_ratio_half (C r h0 : ℝ) (hC : 0 < C) (hh0 : 0 < h0) :
    Real.log ((C * (h0/2) ^ r) / (C * h0 ^ r)) / Real.log ((h0/2) / h0) = r := by
  have h2 : (0:ℝ) < h0 / 2 := by positivity
  have hp1 : (0:ℝ) < (h0/2) ^ r := Real.rpow_pos_of_pos h2 r
  have hp2 : (0:ℝ) < h0 ^ r := Real.rpow_pos_of_pos hh0 r
  have hnum : Real.log ((C * (h0/2) ^ r) / (C * h0 ^ r)) =
      r * (Real.log (h0/2) - Real.log h0) := by
    rw [Real.log_div (by positivity) (by positivity),
      Real.log_mul (ne_of_gt hC) (ne_of_gt hp1),
      Real.log_mul (ne_of_gt hC) (ne_of_gt hp2),
      Real.log_rpow h2, Real.log_rpow hh0]
    ring
  have hden : Real.log ((h0/2)/h0) = Real.log (h0/2) - Real.log h0 :=
    Real.log_div (ne_of_gt h2) (ne_of_gt hh0)
  have hhalf : Real.log (h0/2) - Real.log h0 = - Real.log 2 := by
    rw [Real.log_div (ne_of_gt hh0) (by norm_num)]
    ring
  have h2ne : - Real.log 2 ≠ (0:ℝ) :=
    neg_ne_zero.mpr (ne_of_gt (Real.log_pos (by norm_num)))
  rw [hnum, hden, hhalf]
  exact mul_div_cancel_right₀ r h2ne

/-- Every entry of `rates` on a halving mesh sequence with exact power-law
errors `E = C * h ^ r` equals `r`. -/
theorem rates_halving_powerlaw (C r : ℝ) (hC : 0 < C) :
    ∀ (n : Nat) (h0 : ℝ), 0 < h0 →
      ∀ x ∈ rates (halving h0 n) ((halving h0 n).map (fun h => C * h ^ r)),
        x = r := by
  intro n
  induction n with
  | zero =>
      intro h0 _ x hx
      simp [halving, rates, npDiv, npLog] at hx
  | succ m ih =>
      cases m with
      | zero =>
          intro h0 _ x hx
          simp [halving, rates, npDiv, npLog] at hx
      | succ k =>
          intro h0 hh0 x hx
          rw [show halving h0 (k + 2) = h0 :: (h0/2) :: halving (h0/2/2) k from
            rfl] at hx
          rw [List.map_cons, List.map_cons, rates_cons_cons] at hx
          cases hx with
          | head => exact log_ratio_half C r h0 hC hh0
          | tail b hx => exact ih (h0/2) (by positivity) x hx

/-- Claim C6: on a synthetic sample sequence with `E_i = C * h_i ^ r` over
geometrically halving mesh sizes, `estimate_rates` succeeds and every entry
of the returned rate sequence equals `r` exactly (the real-number rendering
of "to floating-point precision"). -/
theorem estimate_rates_powerlaw (C r h0 : ℝ) (n : Nat) (hC : 0 < C)
    (hh0 : 0 < h0) :
    ∃ rs : List ℝ,
      estimate_rates ((halving h0 n).map (fun h => ⟨h, C * h ^ r⟩)) =
        Except.ok rs ∧ ∀ x ∈ rs, x = r := by
  refine ⟨_, rfl, ?_⟩
  intro x hx
  have hcomp1 : (ErrorSample.h ∘ fun h => (⟨h, C * h ^ r⟩ : ErrorSample)) =
      id := by
    funext y; rfl
  have hcomp2 : (ErrorSample.E ∘ fun h => (⟨h, C * h ^ r⟩ : ErrorSample)) =
      fun h => C * h ^ r := by
    funext y; rfl
  have h1 : ((halving h0 n).map
      (fun h => (⟨h, C * h ^ r⟩ : ErrorSample))).map ErrorSample.h =
      halving h0 n := by
    rw [List.map_map, hcomp1, List.map_id]
  have h2 : ((halving h0 n).map
      (fun h => (⟨h, C * h ^ r⟩ : ErrorSample))).map ErrorSample.E =
      (halving h0 n).map (fun h => C * h ^ r) := by
    rw [List.map_map, hcomp2]
  rw [h1, h2] at hx
  exact rates_halving_powerlaw C r hC n h0 hh0 x hx

/-- Claim C6, witness: `C = 1`, `r = 2`, `h0 = 1`, four halving levels. -/
theorem estimate_rates_powerlaw_witness :
    ∃ rs : List ℝ,
      estimate_rates ((halving 1 4).map (fun h => ⟨h, 1 * h ^ (2:ℝ)⟩)) =
        Except.ok rs ∧ ∀ x ∈ rs, x = 2 :=
  estimate_rates_powerlaw 1 2 1 4 (by norm_num) (by norm_num)

/-! ## Claim C3: the exact-solution dispatch has no unsupported-representation
check -/

/-- If two interpolation oracles agree at a space, the dispatched
interpolation of any exact-solution representation agrees there too. -/
theorem interpExact_congr (interp interp' : Interp) (W : FunctionSpaceSig)
    (e : ExactSol) (h : interp W = interp' W) :
    interpExact interp W e = interpExact interp' W e := by
  cases e <;> simp [interpExact, h]

/-- Claim C3, counterexample.  Handed the unsupported exact-solution object
`ExactSol.other 0` — neither a symbolic expression nor a plain callable —
both evaluators silently produce a number (here `0`) instead of failing with
an "unsupported exact-solution representation" error: their `isinstance`
dispatch sends every non-expression object down the plain-interpolation
branch, and neither function has an error path of its own. -/
theorem evaluators_accept_unsupported :
    error_L2 interpA Q0 uh0 (ExactSol.other 0) 3 = 0 ∧
    error_infinity interpA uh0 (ExactSol.other 0) = 0 := by
  constructor
  · simp [error_L2, l2DiffW, l2ApproxW, l2ExactW, interpExact, interpA, Q0]
  · simp [error_infinity, infAbsDiff, infExactV, interpExact, interpA, uh0,
      listMax]

/-- Claim C3, amended: the evaluators branch only on whether the exact
solution is a symbolic (ufl) expression; every non-expression argument —
plain callable or unsupported object alike — is passed verbatim to the
external `interpolate`, and no unsupported-representation error is raised by
the evaluators themselves. -/
theorem interpExact_no_unsupported_check (interp : Interp)
    (W : FunctionSpaceSig) (e : ExactSol) (h : isUflExpr e = false) :
    interpExact interp W e = interp W (InterpSource.fromObject e) := by
  cases e with
  | uflExpr i => simp [isUflExpr] at h
  | callable i => rfl
  | other i => rfl

/-- Claim C3 amended, witness at the unsupported object `ExactSol.other 3`. -/
theorem interpExact_no_unsupported_check_witness :
    interpExact interpA V0 (ExactSol.other 3) =
      interpA V0 (InterpSource.fromObject (ExactSol.other 3)) :=
  interpExact_no_unsupported_check interpA V0 (ExactSol.other 3) (by decide)

/-! ## Claim C5: nonnegativity and definiteness of `error_L2` -/

/-- A sum of nonnegative reals vanishes exactly when every term vanishes. -/
theorem sum_nonneg_eq_zero_iff :
    ∀ l : List ℝ, (∀ x ∈ l, 0 ≤ x) → (l.sum = 0 ↔ ∀ x ∈ l, x = 0)
  | [], _ => by simp
  | x :: t, h => by
      have hx : 0 ≤ x := h x (List.mem_cons_self x t)
      have ht : ∀ y ∈ t, 0 ≤ y := fun y hy => h y (List.mem_cons_of_mem x hy)
      have hts : 0 ≤ t.sum := List.sum_nonneg ht
      have hrec := sum_nonneg_eq_zero_iff t ht
      rw [List.sum_cons]
      constructor
      · intro h0
        have hx0 : x = 0 ∧ t.sum = 0 := by
          constructor <;> linarith
        intro y hy
        cases hy with
        | head => exact hx0.1
        | tail b hy => exact (hrec.mp hx0.2) y hy
      · intro hall
        have hx0 : x = 0 := hall x (List.mem_cons_self x t)
        have ht0 : t.sum = 0 :=
          hrec.mpr (fun y hy => hall y (List.mem_cons_of_mem x hy))
        rw [hx0, ht0, add_zero]

/-- Entrywise vanishing of the difference array of two equal-length rows is
entrywise equality of the rows. -/
theorem zipWith_sub_zero_iff_zip :
    ∀ a b : List ℝ,
      ((∀ x ∈ List.zipWith (fun s t => s - t) a b, x = 0) ↔
        ∀ p ∈ a.zip b, p.1 = p.2)
  | [], _ => by simp
  | _ :: _, [] => by simp
  | x :: a, y :: b => by
      rw [List.zipWith_cons_cons, List.zip_cons_cons, List.forall_mem_cons,
        List.forall_mem_cons, zipWith_sub_zero_iff_zip a b, sub_eq_zero]

/-- Rank-by-rank version of `zipWith_sub_zero_iff_zip`: the difference
arrays all vanish exactly when all corresponding dof values of the two
fields coincide. -/
theorem join_sub_zero_iff_zip :
    ∀ A B : List (List ℝ),
      ((∀ x ∈ (List.zipWith
          (fun a b => List.zipWith (fun s t => s - t) a b) A B).flatten, x = 0) ↔
        ∀ p ∈ (List.zipWith List.zip A B).flatten, p.1 = p.2)
  | [], _ => by simp
  | _ :: _, [] => by simp
  | a :: A, b :: B => by
      rw [List.zipWith_cons_cons, List.zipWith_cons_cons, List.flatten_cons,
        List.flatten_cons, List.forall_mem_append, List.forall_mem_append,
        zipWith_sub_zero_iff_zip a b, join_sub_zero_iff_zip A B]

/-- Entrywise equality through `zip` of two equal-length rows is equality of
the rows. -/
theorem zip_pairs_eq_iff :
    ∀ a b : List ℝ, a.length = b.length →
      ((∀ p ∈ a.zip b, p.1 = p.2) ↔ a = b)
  | [], [], _ => by simp
  | [], y :: b, h => by simp at h
  | x :: a, [], h => by simp at h
  | x :: a, y :: b, h => by
      have hrec := zip_pairs_eq_iff a b (by simpa using h)
      rw [List.zip_cons_cons, List.forall_mem_cons]
      constructor
      · intro hp
        rw [List.cons.injEq]
        exact ⟨hp.1, hrec.mp hp.2⟩
      · intro he
        injection he with h1 h2
        exact ⟨h1, hrec.mpr h2⟩

/-- Rank-by-rank version of `zip_pairs_eq_iff` for same-shape per-rank dof
arrays. -/
theorem flatten_zip_pairs_eq_iff :
    ∀ A B : List (List ℝ), A.map List.length = B.map List.length →
      ((∀ p ∈ (List.zipWith List.zip A B).flatten, p.1 = p.2) ↔ A = B)
  | [], [], _ => by simp
  | [], b :: B, h => by simp at h
  | a :: A, [], h => by simp at h
  | a :: A, b :: B, h => by
      simp only [List.map_cons, List.cons.injEq] at h
      rw [List.zipWith_cons_cons, List.flatten_cons, List.forall_mem_append,
        zip_pairs_eq_iff a b h.1, flatten_zip_pairs_eq_iff A B h.2,
        List.cons.injEq]

/-- Claim C5: provided the external assembly is the positive-definite
mass-matrix quadratic form of the target space (`PosDefForm`) and the two
interpolants have the same dof-array shapes (the library interpolates both
into the same space `W`), `error_L2` is nonnegative, and it is `0` exactly
when the two interpolated fields are identical at every degree of freedom. -/
theorem error_L2_nonneg_zero_iff (interp : Interp)
    (Q : FunctionSpaceSig → List ℝ → ℝ) (uh : FEFunction) (u_ex : ExactSol)
    (degree_raise : Nat) (hQ : ∀ W, PosDefForm (Q W))
    (hshape : (l2ApproxW interp uh degree_raise).map List.length =
      (l2ExactW interp uh u_ex degree_raise).map List.length) :
    0 ≤ error_L2 interp Q uh u_ex degree_raise ∧
    (error_L2 interp Q uh u_ex degree_raise = 0 ↔
      l2ApproxW interp uh degree_raise =
        l2ExactW interp uh u_ex degree_raise) := by
  rw [← flatten_zip_pairs_eq_iff _ _ hshape]
  set W := l2HighSpace uh.space degree_raise with hW
  have hterms : ∀ q ∈ (l2DiffW interp uh u_ex degree_raise).map (Q W), 0 ≤ q := by
    intro q hq
    rcases List.mem_map.mp hq with ⟨row, _, rfl⟩
    exact (hQ W).1 row
  have hsum : 0 ≤ ((l2DiffW interp uh u_ex degree_raise).map (Q W)).sum :=
    List.sum_nonneg hterms
  refine ⟨Real.sqrt_nonneg _, ?_⟩
  rw [error_L2, ← hW, Real.sqrt_eq_zero']
  constructor
  · intro hle
    have hz : ((l2DiffW interp uh u_ex degree_raise).map (Q W)).sum = 0 :=
      le_antisymm hle hsum
    have hrows := (sum_nonneg_eq_zero_iff _ hterms).mp hz
    rw [← join_sub_zero_iff_zip]
    intro x hx
    rcases List.mem_flatten.mp hx with ⟨row, hrow, hxrow⟩
    have hQrow : Q W row = 0 := hrows (Q W row) (List.mem_map_of_mem _ hrow)
    exact ((hQ W).2 row).mp hQrow x hxrow
  · intro hpairs
    have hz : ∀ x ∈ (l2DiffW interp uh u_ex degree_raise).flatten, x = 0 :=
      (join_sub_zero_iff_zip _ _).mpr hpairs
    have hrows : ∀ q ∈ (l2DiffW interp uh u_ex degree_raise).map (Q W), q = 0 := by
      intro q hq
      rcases List.mem_map.mp hq with ⟨row, hrow, rfl⟩
      refine ((hQ W).2 row).mpr ?_
      intro x hx
      exact hz x (List.mem_flatten.mpr ⟨row, hrow, hx⟩)
    rw [(sum_nonneg_eq_zero_iff _ hterms).mpr hrows]

/-- The concrete sum-of-squares quadratic form is positive definite. -/
theorem Q0_posdef : ∀ W : FunctionSpaceSig, PosDefForm (Q0 W) := by
  intro W
  constructor
  · intro e
    apply List.sum_nonneg
    intro x hx
    rcases List.mem_map.mp hx with ⟨y, _, rfl⟩
    positivity
  · intro e
    have hnn : ∀ x ∈ e.map (fun x => x ^ 2), 0 ≤ x := by
      intro x hx
      rcases List.mem_map.mp hx with ⟨y, _, rfl⟩
      positivity
    rw [Q0, sum_nonneg_eq_zero_iff _ hnn]
    constructor
    · intro hall x hx
      have hsq := hall (x ^ 2) (List.mem_map_of_mem _ hx)
      exact pow_eq_zero_iff (two_ne_zero) |>.mp hsq
    · intro hall y hy
      rcases List.mem_map.mp hy with ⟨x, hx, rfl⟩
      rw [hall x hx]
      norm_num

/-- Claim C5, witness at the concrete oracles `interpA`/`Q0`. -/
theorem error_L2_nonneg_zero_iff_witness :
    0 ≤ error_L2 interpA Q0 uh0 u_numpy 3 ∧
    (error_L2 interpA Q0 uh0 u_numpy 3 = 0 ↔
      l2ApproxW interpA uh0 3 = l2ExactW interpA uh0 u_numpy 3) :=
  error_L2_nonneg_zero_iff interpA Q0 uh0 u_numpy 3 Q0_posdef rfl

/-! ## Claim C7: `error_infinity` is the max absolute dof-wise deviation -/

/-- A `max`-fold only grows its base. -/
theorem foldl_max_init_le : ∀ (l : List ℝ) (a : ℝ), a ≤ l.foldl max a
  | [], a => le_refl a
  | x :: t, a => le_trans (le_max_left a x) (foldl_max_init_le t (max a x))

/-- A `max`-fold bounds every member of the list. -/
theorem mem_le_foldl_max :
    ∀ (l : List ℝ) (a x : ℝ), x ∈ l → x ≤ l.foldl max a
  | y :: t, a, x, h => by
      cases h with
      | head => exact le_trans (le_max_right a y) (foldl_max_init_le t (max a y))
      | tail b h => exact mem_le_foldl_max t (max a y) x h

/-- A `max`-fold is its base or a member of the list. -/
theorem foldl_max_mem_or_init :
    ∀ (l : List ℝ) (a : ℝ), l.foldl max a = a ∨ l.foldl max a ∈ l
  | [], a => Or.inl rfl
  | x :: t, a => by
      rcases foldl_max_mem_or_init t (max a x) with h | h
      · rw [List.foldl_cons, h]
        rcases le_total a x with hax | hax
        · right
          rw [max_eq_right hax]
          exact List.mem_cons_self x t
        · left
          rw [max_eq_left hax]
      · right
        rw [List.foldl_cons]
        exact List.mem_cons_of_mem x h

/-- Every member of a list is bounded by its `listMax`. -/
theorem le_listMax (l : List ℝ) (x : ℝ) (h : x ∈ l) : x ≤ listMax l :=
  mem_le_foldl_max l 0 x h

/-- A `listMax` is `0` or attained by a member. -/
theorem listMax_mem_or_zero (l : List ℝ) : listMax l ∈ l ∨ listMax l = 0 := by
  rcases foldl_max_mem_or_init l 0 with h | h
  · exact Or.inr h
  · exact Or.inl h

/-- Claim C7: `error_infinity` interpolates the exact solution into `u_h`'s
own function space (the evaluator consults the interpolation oracle only at
`u_h.space` — no degree raise), takes the pointwise absolute difference of
the dof coefficient arrays, and the max-reduction over all ranks makes the
result the maximum absolute dof-wise deviation: it bounds every entry of the
absolute-difference arrays and is attained by one of them (or is `0`, for a
run with no dofs). -/
theorem error_infinity_max_dof_deviation (interp interp' : Interp)
    (u_h : FEFunction) (u_ex : ExactSol)
    (hagree : interp u_h.space = interp' u_h.space) :
    (∀ d ∈ (infAbsDiff interp u_h u_ex).flatten,
        d ≤ error_infinity interp u_h u_ex) ∧
    (error_infinity interp u_h u_ex ∈ (infAbsDiff interp u_h u_ex).flatten ∨
      error_infinity interp u_h u_ex = 0) ∧
    error_infinity interp u_h u_ex = error_infinity interp' u_h u_ex := by
  refine ⟨?_, ?_, ?_⟩
  · intro d hd
    rcases List.mem_flatten.mp hd with ⟨row, hrow, hdrow⟩
    have h1 : d ≤ listMax row := le_listMax row d hdrow
    have h2 : listMax row ≤ error_infinity interp u_h u_ex :=
      le_listMax _ _ (List.mem_map_of_mem listMax hrow)
    exact le_trans h1 h2
  · rcases listMax_mem_or_zero ((infAbsDiff interp u_h u_ex).map listMax) with
      hmem | hzero
    · rcases List.mem_map.mp hmem with ⟨row, hrow, hval⟩
      rcases listMax_mem_or_zero row with hrmem | hrzero
      · left
        rw [error_infinity, ← hval]
        exact List.mem_flatten.mpr ⟨row, hrow, hrmem⟩
      · right
        rw [error_infinity, ← hval, hrzero]
    · right
      rw [error_infinity, hzero]
  · rw [error_infinity, error_infinity, infAbsDiff, infAbsDiff, infExactV,
      infExactV, interpExact_congr interp interp' u_h.space u_ex hagree]

/-- Claim C7, witness: two oracles agreeing on degree-1 spaces (`uh0`'s own
space) but differing elsewhere give the same infinity error, and the max
characterization holds at them. -/
theorem error_infinity_max_dof_deviation_witness :
    (∀ d ∈ (infAbsDiff interpA uh0 u_numpy).flatten,
        d ≤ error_infinity interpA uh0 u_numpy) ∧
    (error_infinity interpA uh0 u_numpy ∈
        (infAbsDiff interpA uh0 u_numpy).flatten ∨
      error_infinity interpA uh0 u_numpy = 0) ∧
    error_infinity interpA uh0 u_numpy = error_infinity interpB uh0 u_numpy :=
  error_infinity_max_dof_deviation interpA interpB uh0 u_numpy
    (by
      funext s
      simp [interpA, interpB, uh0, V0])

/-! ## Claim C8: determinism of the pipeline -/

/-- Claim C8: the embedded pipeline is pure, hence deterministic — repeated
evaluation of `error_infinity` or `error_L2` on identical arguments yields
the same value, and running a convergence-study loop twice against the same
deterministic solver oracle yields identical `ErrorSample` sequences;
moreover the output depends on the solver oracle only through its responses
at the queried `(N, degree)` pairs. -/
theorem pipeline_deterministic (externalSolve externalSolve' : Nat → Nat → FEFunction)
    (uflExprId : Nat) (interp : Interp) (Q : FunctionSpaceSig → List ℝ → ℝ)
    (Ns : List Nat) (degree : Nat) (u_h : FEFunction) (u_ex : ExactSol)
    (hagree : ∀ N ∈ Ns, externalSolve N degree = externalSolve' N degree) :
    error_infinity interp u_h u_ex = error_infinity interp u_h u_ex ∧
    error_L2 interp Q u_h u_ex defaultDegreeRaise =
      error_L2 interp Q u_h u_ex defaultDegreeRaise ∧
    convergenceStudyL2 externalSolve uflExprId interp Q Ns degree =
      convergenceStudyL2 externalSolve' uflExprId interp Q Ns degree ∧
    convergenceStudyInf externalSolve uflExprId interp Ns degree =
      convergenceStudyInf externalSolve' uflExprId interp Ns degree := by
  refine ⟨rfl, rfl, ?_, ?_⟩
  · unfold convergenceStudyL2
    apply List.map_congr_left
    intro N hN
    rw [solve_poisson, solve_poisson, hagree N hN]
  · unfold convergenceStudyInf
    apply List.map_congr_left
    intro N hN
    rw [solve_poisson, solve_poisson, hagree N hN]

/-- Claim C8, witness: over `Ns = [4, 8]`, the oracles `solveA` and `solveB`
agree at the queried resolutions (they differ only at `N = 99`), and the two
runs coincide. -/
theorem pipeline_deterministic_witness :
    error_infinity interpA uh0 u_numpy = error_infinity interpA uh0 u_numpy ∧
    error_L2 interpA Q0 uh0 u_numpy defaultDegreeRaise =
      error_L2 interpA Q0 uh0 u_numpy defaultDegreeRaise ∧
    convergenceStudyL2 solveA 0 interpA Q0 [4, 8] 1 =
      convergenceStudyL2 solveB 0 interpA Q0 [4, 8] 1 ∧
    convergenceStudyInf solveA 0 interpA [4, 8] 1 =
      convergenceStudyInf solveB 0 interpA [4, 8] 1 :=
  pipeline_deterministic solveA solveB 0 interpA Q0 [4, 8] 1 uh0 u_numpy
    (by
      intro N hN
      fin_cases hN <;> rfl)

/-! ## Claim C9: the raised comparison space of `error_L2` -/

/-- Claim C9: the comparison space `W` built by `error_L2` keeps the mesh
and element family of `uh`'s own space and raises only the degree, to
`p + degree_raise` (with `3` the default raise); and `error_L2` consults the
interpolation oracle only at that raised space, so two oracles agreeing
there give identical errors. -/
theorem error_L2_raised_space (V : FunctionSpaceSig) (degree_raise : Nat)
    (interp interp' : Interp) (Q : FunctionSpaceSig → List ℝ → ℝ)
    (uh : FEFunction) (u_ex : ExactSol)
    (hagree : interp (l2HighSpace uh.space degree_raise) =
      interp' (l2HighSpace uh.space degree_raise)) :
    (l2HighSpace V degree_raise).meshId = V.meshId ∧
    (l2HighSpace V degree_raise).elem.family = V.elem.family ∧
    (l2HighSpace V degree_raise).elem.degree = V.elem.degree + degree_raise ∧
    defaultDegreeRaise = 3 ∧
    error_L2 interp Q uh u_ex degree_raise =
      error_L2 interp' Q uh u_ex degree_raise := by
  refine ⟨rfl, rfl, rfl, rfl, ?_⟩
  have h1 : l2ApproxW interp uh degree_raise = l2ApproxW interp' uh degree_raise := by
    rw [l2ApproxW, l2ApproxW, hagree]
  have h2 : l2ExactW interp uh u_ex degree_raise =
      l2ExactW interp' uh u_ex degree_raise := by
    rw [l2ExactW, l2ExactW,
      interpExact_congr interp interp' (l2HighSpace uh.space degree_raise)
        u_ex hagree]
  rw [error_L2, error_L2, l2DiffW, l2DiffW, h1, h2]

/-- Claim C9, witness: `uh0` has degree 1, its raised space at the default
raise has degree 4; `interpA` and `interpC` agree on degree-4 spaces but
differ elsewhere, and the errors coincide. -/
theorem error_L2_raised_space_witness :
    (l2HighSpace V0 3).meshId = V0.meshId ∧
    (l2HighSpace V0 3).elem.family = V0.elem.family ∧
    (l2HighSpace V0 3).elem.degree = V0.elem.degree + 3 ∧
    defaultDegreeRaise = 3 ∧
    error_L2 interpA Q0 uh0 u_numpy 3 = error_L2 interpC Q0 uh0 u_numpy 3 :=
  error_L2_raised_space V0 3 interpA interpC Q0 uh0 u_numpy
    (by
      funext s
      simp [interpA, interpC, uh0, V0, l2HighSpace])

/-! ## Claim C10: the study loops measure against `u_numpy` -/

/-- Claim C10: in every iteration of the convergence-study loops the error
is computed against the fixed module-level numpy callable `u_numpy`, not
against the symbolic exact solution returned as the second component of
`solve_poisson`'s pair: replacing the returned ufl expression by any other
(`uflExprId1` vs `uflExprId2`) leaves the recorded `ErrorSample` sequences
unchanged, and the L2 study is exactly the per-`N` record
`(1/N, error_L2(uh, u_numpy, 3))`. -/
theorem study_discards_returned_exact
    (externalSolve : Nat → Nat → FEFunction) (uflExprId1 uflExprId2 : Nat)
    (interp : Interp) (Q : FunctionSpaceSig → List ℝ → ℝ) (Ns : List Nat)
    (degree : Nat) :
    convergenceStudyL2 externalSolve uflExprId1 interp Q Ns degree =
      convergenceStudyL2 externalSolve uflExprId2 interp Q Ns degree ∧
    convergenceStudyInf externalSolve uflExprId1 interp Ns degree =
      convergenceStudyInf externalSolve uflExprId2 interp Ns degree ∧
    convergenceStudyL2 externalSolve uflExprId1 interp Q Ns degree =
      Ns.map (fun (N : Nat) =>
        { h := 1 / (N : ℝ)
          E := error_L2 interp Q (externalSolve N degree) u_numpy
            defaultDegreeRaise }) :=
  ⟨rfl, rfl, rfl⟩

end Convergence
